import Mathlib

set_option maxHeartbeats 1000000
set_option maxRecDepth 4000

/-!
Shallow embedding of the gibvaccine poller (`src/main.rs`): the `Location`
record, the snapshot/diff loop of `main`, the ranking/filter/first-run logic,
and the record parser `get_available_location` together with its two regexes
`LOCATION_RE` and `INFO_RE`.  Machine integers (`u64`) are modelled as `Nat`
with an explicit `2 ^ 64` bound where overflow matters (`parseU64`).
-/

/-- Rust `struct Location` (main.rs lines 14-20).  `num_available : u64` is
modelled as `Nat`; every value produced by the parser is `< 2 ^ 64`
(see `parseU64`), and the rest of the program only compares counts. -/
structure Location where
  municipality : String
  organization : String
  booking_link : String
  num_available : Nat
deriving DecidableEq, Repr

/-- Rust `Location::key` (main.rs lines 23-25). -/
def Location.key (l : Location) : String × String :=
  (l.municipality, l.organization)

/-- The process snapshot `current_locations : HashMap<(String, String), Location>`
(main.rs line 30), modelled extensionally as a partial map from keys to
locations.  A `HashMap` has no observable order, so all statements about the
snapshot are made through application at a key. -/
abbrev Snapshot := (String × String) → Option Location

/-- The empty map `HashMap::new()`. -/
def Snapshot.empty : Snapshot := fun _ => none

/-- One iteration of the reconcile loop (main.rs lines 50-63):
`current_locations.entry(location.key())` followed by `and_modify` /
`or_insert_with`.  Note the `and_modify` closure pushes the incoming record
when the counts differ and then assigns only `num_available`; the stored
`booking_link` (and the other fields) are left as they were.  The
`or_insert_with` closure pushes the incoming record and inserts it whole. -/
def reconcileStep (acc : Snapshot × List Location) (loc : Location) :
    Snapshot × List Location :=
  match acc.1 loc.key with
  | some old =>
      (fun k => if k = loc.key then
          some { old with num_available := loc.num_available }
        else acc.1 k,
       if old.num_available ≠ loc.num_available then acc.2 ++ [loc] else acc.2)
  | none =>
      (fun k => if k = loc.key then some loc else acc.1 k,
       acc.2 ++ [loc])

/-- The whole reconcile pass over `locations.iter()` (main.rs lines 48-63),
starting from `changed_locations = vec![]`. -/
def reconcile (snap : Snapshot) (locs : List Location) :
    Snapshot × List Location :=
  locs.foldl reconcileStep (snap, [])

/-- The allow-list constant `MUNICIPALITIES` (main.rs line 10). -/
def MUNICIPALITIES : List String := ["Ale", "Göteborg", "Kungälv", "Mölndal"]

/-- The comparison used by `changed_locations.sort_by_key(|l| l.num_available)`
(main.rs line 65): ascending order of `num_available`. -/
def rankLE (a b : Location) : Prop := a.num_available ≤ b.num_available

instance : DecidableRel rankLE := fun a b => Nat.decLe a.num_available b.num_available

instance : IsTotal Location rankLE :=
  ⟨fun a b => Nat.le_total a.num_available b.num_available⟩

instance : IsTrans Location rankLE :=
  ⟨fun _ _ _ hab hbc => Nat.le_trans hab hbc⟩

/-- The sort step (main.rs line 65).  Rust `Vec::sort_by_key` is a stable
sort: its output is sorted by the key and keeps key-ties in input order,
which determines it uniquely; it is embedded as a stable insertion sort,
whose sortedness, permutation and stability are proved below. -/
def sortChanged (changed : List Location) : List Location :=
  List.insertionSort rankLE changed

/-- The allow-list filter (main.rs lines 67-70): keep locations whose
municipality occurs in `MUNICIPALITIES` (case-sensitive string equality). -/
def filterChanged (sorted : List Location) : List Location :=
  sorted.filter (fun loc => MUNICIPALITIES.contains loc.municipality)

/-- The value of `filtered_locations.first()` after sort and filter: the record whose
`booking_link` the action hook would receive. -/
def primaryCandidate (changed : List Location) : Option Location :=
  (filterChanged (sortChanged changed)).head?

/-- The "Filtered N location(s)." report (main.rs lines 72-79), as the
optional line printed. -/
def filteredMessage (numChanged numFiltered : Nat) : Option String :=
  if numChanged > numFiltered then
    some (if numChanged - numFiltered = 1 then "Filtered 1 location."
          else "Filtered " ++ toString (numChanged - numFiltered) ++ " locations.")
  else none

/-- Everything one iteration of the `loop` in `main` produces that the claims
talk about: the (sorted) changed list, the filtered list, the optional
"Filtered ..." line, and the link handed to `open::that` (`none` when the
hook is not invoked). -/
structure CycleOutput where
  changed : List Location
  filtered : List Location
  message : Option String
  actionLink : Option String
deriving DecidableEq, Repr

/-- One iteration of the `loop` in `main` (main.rs lines 33-109), given the
locations extracted this cycle: reconcile, sort, filter, report, and the
first-run-guarded hook invocation (lines 100-104), then `is_first_run = false`
(line 106). -/
def runCycle (isFirstRun : Bool) (snap : Snapshot) (locs : List Location) :
    (Bool × Snapshot) × CycleOutput :=
  let r := reconcile snap locs
  let changed := sortChanged r.2
  let filtered := filterChanged changed
  let message := filteredMessage changed.length filtered.length
  let actionLink :=
    match filtered.head? with
    | some loc => if isFirstRun then none else some loc.booking_link
    | none => none
  ((false, r.1), ⟨changed, filtered, message, actionLink⟩)

/-- The sequence of cycles of process lifetime, one entry of `inputs` per
poll, threading the first-run flag and the snapshot exactly as `main` does. -/
def runCycles : Bool → Snapshot → List (List Location) → List CycleOutput
  | _, _, [] => []
  | fr, snap, locs :: rest =>
      let step := runCycle fr snap locs
      step.2 :: runCycles step.1.1 step.1.2 rest

/-- The trace of outputs from process start: flag `is_first_run = true`,
empty snapshot (main.rs lines 29-30). -/
def initialTrace (inputs : List (List Location)) : List CycleOutput :=
  runCycles true Snapshot.empty inputs

/-! ## The record parser and its regexes -/

/-- Membership of a code point in a closed interval. -/
def inRange (lo hi n : Nat) : Bool := decide (lo ≤ n ∧ n ≤ hi)

/-- The character class `\s` of the Rust regex crate in its default Unicode
mode: the Unicode `White_Space` property, which consists of exactly these
25 code points (U+0009..U+000D, U+0020, U+0085, U+00A0, U+1680,
U+2000..U+200A, U+2028, U+2029, U+202F, U+205F, U+3000); the set has been
stable across every Unicode version the crate has shipped. -/
def rsWhitespace (c : Char) : Bool :=
  inRange 0x9 0xD c.toNat || decide (c.toNat = 0x20) ||
  decide (c.toNat = 0x85) || decide (c.toNat = 0xA0) ||
  decide (c.toNat = 0x1680) || inRange 0x2000 0x200A c.toNat ||
  decide (c.toNat = 0x2028) || decide (c.toNat = 0x2029) ||
  decide (c.toNat = 0x202F) || decide (c.toNat = 0x205F) ||
  decide (c.toNat = 0x3000)

/-- The character class `\d` of the Rust regex crate in its default Unicode
mode: the general category `Nd` (decimal number).  The table below is the
complete `Nd` block list of the Unicode 15.0 character database (the UCD
generation shipped by the crate; `Nd` code points always come in contiguous
runs of ten carrying digit values 0-9, the ASCII run first). -/
def rsDigit (c : Char) : Bool :=
  inRange 0x30 0x39 c.toNat ||
  inRange 0x660 0x669 c.toNat || inRange 0x6F0 0x6F9 c.toNat ||
  inRange 0x7C0 0x7C9 c.toNat || inRange 0x966 0x96F c.toNat ||
  inRange 0x9E6 0x9EF c.toNat || inRange 0xA66 0xA6F c.toNat ||
  inRange 0xAE6 0xAEF c.toNat || inRange 0xB66 0xB6F c.toNat ||
  inRange 0xBE6 0xBEF c.toNat || inRange 0xC66 0xC6F c.toNat ||
  inRange 0xCE6 0xCEF c.toNat || inRange 0xD66 0xD6F c.toNat ||
  inRange 0xDE6 0xDEF c.toNat || inRange 0xE50 0xE59 c.toNat ||
  inRange 0xED0 0xED9 c.toNat || inRange 0xF20 0xF29 c.toNat ||
  inRange 0x1040 0x1049 c.toNat || inRange 0x1090 0x1099 c.toNat ||
  inRange 0x17E0 0x17E9 c.toNat || inRange 0x1810 0x1819 c.toNat ||
  inRange 0x1946 0x194F c.toNat || inRange 0x19D0 0x19D9 c.toNat ||
  inRange 0x1A80 0x1A89 c.toNat || inRange 0x1A90 0x1A99 c.toNat ||
  inRange 0x1B50 0x1B59 c.toNat || inRange 0x1BB0 0x1BB9 c.toNat ||
  inRange 0x1C40 0x1C49 c.toNat || inRange 0x1C50 0x1C59 c.toNat ||
  inRange 0xA620 0xA629 c.toNat || inRange 0xA8D0 0xA8D9 c.toNat ||
  inRange 0xA900 0xA909 c.toNat || inRange 0xA9D0 0xA9D9 c.toNat ||
  inRange 0xA9F0 0xA9F9 c.toNat || inRange 0xAA50 0xAA59 c.toNat ||
  inRange 0xABF0 0xABF9 c.toNat || inRange 0xFF10 0xFF19 c.toNat ||
  inRange 0x104A0 0x104A9 c.toNat || inRange 0x10D30 0x10D39 c.toNat ||
  inRange 0x11066 0x1106F c.toNat || inRange 0x110F0 0x110F9 c.toNat ||
  inRange 0x11136 0x1113F c.toNat || inRange 0x111D0 0x111D9 c.toNat ||
  inRange 0x112F0 0x112F9 c.toNat || inRange 0x11450 0x11459 c.toNat ||
  inRange 0x114D0 0x114D9 c.toNat || inRange 0x11650 0x11659 c.toNat ||
  inRange 0x116C0 0x116C9 c.toNat || inRange 0x11730 0x11739 c.toNat ||
  inRange 0x118E0 0x118E9 c.toNat || inRange 0x11950 0x11959 c.toNat ||
  inRange 0x11C50 0x11C59 c.toNat || inRange 0x11D50 0x11D59 c.toNat ||
  inRange 0x11DA0 0x11DA9 c.toNat || inRange 0x11F50 0x11F59 c.toNat ||
  inRange 0x16A60 0x16A69 c.toNat || inRange 0x16AC0 0x16AC9 c.toNat ||
  inRange 0x16B50 0x16B59 c.toNat || inRange 0x1D7CE 0x1D7FF c.toNat ||
  inRange 0x1E140 0x1E149 c.toNat || inRange 0x1E2F0 0x1E2F9 c.toNat ||
  inRange 0x1E4F0 0x1E4F9 c.toNat || inRange 0x1E950 0x1E959 c.toNat ||
  inRange 0x1FBF0 0x1FBF9 c.toNat

/-- An ASCII decimal digit — the only kind of digit `str::parse::<u64>`
accepts. -/
def asciiDigit (c : Char) : Bool := inRange 0x30 0x39 c.toNat

/-- The pattern `(.+)$` at the current position: `.` matches any character except a
newline and `$` is the end of the haystack, so the match succeeds exactly
when the remainder is nonempty and newline-free, capturing the whole
remainder (no shorter capture can reach `$`). -/
def matchRestToEnd (r : List Char) : Option (List Char) :=
  if r ≠ [] ∧ r.all (fun c => c ≠ '\n') then some r else none

/-- Backtracking for `\s+(.+)$` once at least one whitespace character has
been consumed by `\s+`: greedily extend `\s+`; if the rest then fails, stop
`\s+` here and let `(.+)$` start on the current character instead. -/
def spacePlusGo : List Char → Option (List Char)
  | [] => none
  | c :: t =>
    if rsWhitespace c then
      match spacePlusGo t with
      | some o => some o
      | none => matchRestToEnd (c :: t)
    else matchRestToEnd (c :: t)

/-- The pattern `\s+(.+)$` at the current position (the tail of `LOCATION_RE` after the
colon): the first character must be whitespace, then backtrack greedily. -/
def matchSpacePlusRest : List Char → Option (List Char)
  | [] => none
  | c :: t => if rsWhitespace c then spacePlusGo t else none

/-- Split a string at its first `:`; `none` when there is no colon. -/
def splitFirstColon : List Char → Option (List Char × List Char)
  | [] => none
  | c :: t =>
    if c = ':' then some ([], t)
    else match splitFirstColon t with
      | some (m, r) => some (c :: m, r)
      | none => none

/-- The pattern `([^:]+):\s+(.+)$` at the current position.  Because `[^:]+` is followed
by a literal `:`, the capture can only end at the first colon of the string
(any shorter attempt puts a non-colon character under the `:` literal), so
no backtracking inside the capture is needed: split at the first colon,
require a nonempty municipality, and match the tail. -/
def matchLabelBody (s : List Char) : Option (List Char × List Char) :=
  match splitFirstColon s with
  | some (m, rest) =>
      if m = [] then none
      else match matchSpacePlusRest rest with
        | some o => some (m, o)
        | none => none
  | none => none

/-- The regex `LOCATION_RE = ^\s*(?P<municipality>[^:]+):\s+(?P<organization>.+)$`
(main.rs line 135), with the leftmost-first (greedy,
backtracking) capture semantics: `\s*` prefers to swallow the whole
whitespace prefix, giving one whitespace character at a time back to
`[^:]+` on failure.  Returns the (municipality, organization) captures. -/
def locationCaptures : List Char → Option (List Char × List Char)
  | [] => none
  | c :: t =>
    if rsWhitespace c then
      match locationCaptures t with
      | some r => some r
      | none => matchLabelBody (c :: t)
    else matchLabelBody (c :: t)

/-- The regex `INFO_RE = ^\s*\((?P<num_available>\d+)` (main.rs line 136).  `(` is not
whitespace, so greedy `\s*` takes exactly the maximal whitespace prefix
(backtracking would put a whitespace character under the `(` literal and
fail); `\d+` then captures the maximal nonempty digit run.  There is no
anchor after the capture, so the rest of the text is unconstrained. -/
def infoCaptures (s : List Char) : Option (List Char) :=
  match s.dropWhile rsWhitespace with
  | '(' :: u =>
      let d := u.takeWhile rsDigit
      if d = [] then none else some d
  | _ => none

/-- Numeric value of an ASCII digit string (most significant digit first). -/
def natOfDigits (d : List Char) : Nat :=
  d.foldl (fun acc c => acc * 10 + (c.toNat - '0'.toNat)) 0

/-- Rust `str::parse::<u64>` on what `INFO_RE` captures — a nonempty run of
Unicode `Nd` digits, which can contain no sign: the parse succeeds with the
numeric value exactly when every digit is ASCII and the value fits in a
`u64`; a non-ASCII decimal digit or an overflow makes it fail. -/
def parseU64 (d : List Char) : Option Nat :=
  if d ≠ [] ∧ d.all asciiDigit ∧ natOfDigits d < 2 ^ 64 then
    some (natOfDigits d)
  else none

/-- Outcome of `get_available_location`: a parsed record, a skip (`None` in
the source), or the abort caused by `.unwrap()` on a failed integer
conversion (main.rs lines 173-178). -/
inductive ParseResult where
  | ok (loc : Location)
  | skip
  | panicked
deriving DecidableEq, Repr

/-- The data `get_available_location` reads off one booking block
(main.rs lines 139-152): the concatenated text of the first `h3`, the `href`
attribute of the first `a` (`none` when the element or the attribute is
missing), and the concatenated text of the first `span`. -/
structure Block where
  heading : Option String
  href : Option String
  info : Option String

/-- The parser `get_available_location` (main.rs lines 129-192): all three sub-elements
must be present and both regexes must capture, otherwise the block is
skipped; the captured digit run is then parsed as `u64`, and the `.unwrap()`
on that parse aborts when it fails. -/
def get_available_location (b : Block) : ParseResult :=
  match b.heading, b.href, b.info with
  | some location, some link, some info =>
    match locationCaptures location.data, infoCaptures info.data with
    | some (m, o), some d =>
      match parseU64 d with
      | some n =>
          ParseResult.ok { municipality := String.mk m,
                           organization := String.mk o,
                           booking_link := link, num_available := n }
      | none => ParseResult.panicked
    | _, _ => ParseResult.skip
  | _, _, _ => ParseResult.skip

/-! ## Helper lemmas about `reconcile` -/

/-- A reconcile step on a key already present in the snapshot stores the old
entry with only `num_available` replaced, and appends to the changed list
exactly when the counts differ. -/
theorem reconcileStep_present (snap : Snapshot) (ch : List Location)
    (loc old : Location) (h : snap loc.key = some old) :
    reconcileStep (snap, ch) loc
      = (fun k => if k = loc.key then
            some { old with num_available := loc.num_available }
          else snap k,
         if old.num_available ≠ loc.num_available then ch ++ [loc] else ch) := by
  simp only [reconcileStep, h]

/-- A reconcile step on an absent key inserts the incoming record whole and
appends it to the changed list. -/
theorem reconcileStep_absent (snap : Snapshot) (ch : List Location)
    (loc : Location) (h : snap loc.key = none) :
    reconcileStep (snap, ch) loc
      = (fun k => if k = loc.key then some loc else snap k, ch ++ [loc]) := by
  simp only [reconcileStep, h]

/-- A reconcile step always leaves the key of the processed location mapped
to an entry carrying the incoming count. -/
theorem reconcileStep_fst_count (snap : Snapshot) (ch : List Location)
    (loc : Location) :
    ∃ v, (reconcileStep (snap, ch) loc).1 loc.key = some v
        ∧ v.num_available = loc.num_available := by
  cases h : snap loc.key with
  | some old =>
      exact ⟨{ old with num_available := loc.num_available },
        by rw [reconcileStep_present snap ch loc old h]; simp, rfl⟩
  | none =>
      exact ⟨loc, by rw [reconcileStep_absent snap ch loc h]; simp, rfl⟩

/-- Keys of locations not occurring in the processed list are untouched by
the reconcile fold. -/
theorem reconcile_fst_not_mem (locs : List Location) (snap : Snapshot)
    (ch : List Location) (k : String × String) (h : ∀ l ∈ locs, l.key ≠ k) :
    (locs.foldl reconcileStep (snap, ch)).1 k = snap k := by
  induction locs generalizing snap ch with
  | nil => rfl
  | cons cur rest ih =>
    rw [List.foldl_cons]
    have hcur : cur.key ≠ k := h cur (by simp)
    have htail : ∀ l ∈ rest, l.key ≠ k := fun l hl => h l (by simp [hl])
    have hk : (k = cur.key) = False := eq_false (fun he => hcur he.symm)
    cases hc : snap cur.key with
    | some old =>
        rw [reconcileStep_present snap ch cur old hc, ih _ _ htail]
        simp [hk]
    | none =>
        rw [reconcileStep_absent snap ch cur hc, ih _ _ htail]
        simp [hk]

/-- If the snapshot already stores, for every location of the list, an entry
with that exact count, a reconcile pass appends nothing to the changed
accumulator. -/
theorem reconcile_noop (locs : List Location) (snap : Snapshot)
    (ch : List Location)
    (h : ∀ l ∈ locs, ∃ v, snap l.key = some v
        ∧ v.num_available = l.num_available) :
    (locs.foldl reconcileStep (snap, ch)).2 = ch := by
  induction locs generalizing snap ch with
  | nil => rfl
  | cons cur rest ih =>
    obtain ⟨v, hv, hcount⟩ := h cur (by simp)
    rw [List.foldl_cons, reconcileStep_present snap ch cur v hv]
    rw [if_neg (by simp [hcount])]
    apply ih
    intro l hl
    obtain ⟨w, hw, hwc⟩ := h l (by simp [hl])
    by_cases hk : l.key = cur.key
    · refine ⟨{ v with num_available := cur.num_available }, by simp [hk], ?_⟩
      have : w = v := by rw [hk, hv] at hw; exact (Option.some.injEq _ _).mp hw.symm
      subst this
      simp only []
      omega
    · exact ⟨w, by simp [hk, hw], hwc⟩

/-- After a reconcile pass over a list with pairwise distinct keys, the key
of every processed location stores the count that location carried. -/
theorem reconcile_counts (locs : List Location) (snap : Snapshot)
    (ch : List Location)
    (hnd : locs.Pairwise (fun a b => a.key ≠ b.key)) :
    ∀ l ∈ locs, ∃ v, (locs.foldl reconcileStep (snap, ch)).1 l.key = some v
        ∧ v.num_available = l.num_available := by
  induction locs generalizing snap ch with
  | nil => simp
  | cons cur rest ih =>
    have hpw := List.pairwise_cons.mp hnd
    intro l hl
    rw [List.foldl_cons]
    rcases List.mem_cons.mp hl with rfl | hl'
    · obtain ⟨v, hv, hc⟩ := reconcileStep_fst_count snap ch l
      refine ⟨v, ?_, hc⟩
      rw [reconcile_fst_not_mem rest _ _ l.key
        (fun x hx => (hpw.1 x hx).symm)]
      exact hv
    · exact ih _ _ hpw.2 l hl'

/-- A reconcile pass whose locations are all absent from the snapshot and
have pairwise distinct keys appends exactly the input list to the changed
accumulator and stores every location whole under its key. -/
theorem reconcile_all_new (locs : List Location) (snap : Snapshot)
    (ch : List Location)
    (habsent : ∀ l ∈ locs, snap l.key = none)
    (hnd : locs.Pairwise (fun a b => a.key ≠ b.key)) :
    (locs.foldl reconcileStep (snap, ch)).2 = ch ++ locs ∧
    ∀ l ∈ locs, (locs.foldl reconcileStep (snap, ch)).1 l.key = some l := by
  induction locs generalizing snap ch with
  | nil => simp
  | cons cur rest ih =>
    have hpw := List.pairwise_cons.mp hnd
    have hcur : snap cur.key = none := habsent cur (by simp)
    rw [List.foldl_cons, reconcileStep_absent snap ch cur hcur]
    have habsent' : ∀ l ∈ rest,
        (fun k => if k = cur.key then some cur else snap k) l.key = none := by
      intro l hl
      have hne : l.key ≠ cur.key := ((hpw.1 l hl)).symm
      simp [hne, habsent l (by simp [hl])]
    obtain ⟨h2, h1⟩ := ih (fun k => if k = cur.key then some cur else snap k)
      (ch ++ [cur]) habsent' hpw.2
    refine ⟨by rw [h2]; simp, ?_⟩
    intro l hl
    rcases List.mem_cons.mp hl with rfl | hl'
    · rw [reconcile_fst_not_mem rest _ _ l.key
        (fun x hx => (hpw.1 x hx).symm)]
      simp
    · exact h1 l hl'

/-! ## Claims C1, C2, C3 — the Snapshot and Diff Engine -/

/-- A concrete snapshot holding one entry, used to exercise the
already-present branch of the reconcile loop. -/
def c1Snap : Snapshot :=
  fun k => if k = ("Ale", "A") then some ⟨"Ale", "A", "L1", 5⟩ else none

/-- C1 (corrected): on a reconcile step whose incoming key is already in the
snapshot, only `num_available` of the stored entry is overwritten; the stored
`booking_link` (and the name fields) keep their previous values, in both the
count-changed and the count-stable case.  The incoming record is appended to
`changed_locations` exactly when the counts differ. -/
theorem c1_present_key_updates_count_only (snap : Snapshot) (ch : List Location)
    (loc old : Location) (h : snap loc.key = some old) :
    (reconcileStep (snap, ch) loc).1 loc.key
        = some { old with num_available := loc.num_available } ∧
    ((reconcileStep (snap, ch) loc).1 loc.key).map Location.booking_link
        = some old.booking_link ∧
    (reconcileStep (snap, ch) loc).2
        = (if old.num_available ≠ loc.num_available then ch ++ [loc] else ch) := by
  rw [reconcileStep_present snap ch loc old h]
  refine ⟨by simp, by simp, rfl⟩

/-- Witness for C1: a count-changed update (5 to 7) keeps the old link. -/
theorem c1_present_key_updates_count_only_witness :
    c1Snap (Location.key ⟨"Ale", "A", "L2", 7⟩) = some ⟨"Ale", "A", "L1", 5⟩ ∧
    (reconcileStep (c1Snap, []) ⟨"Ale", "A", "L2", 7⟩).1
        (Location.key ⟨"Ale", "A", "L2", 7⟩) = some ⟨"Ale", "A", "L1", 7⟩ ∧
    (reconcileStep (c1Snap, []) ⟨"Ale", "A", "L2", 7⟩).2 = [⟨"Ale", "A", "L2", 7⟩] := by
  have h := c1_present_key_updates_count_only c1Snap [] ⟨"Ale", "A", "L2", 7⟩
    ⟨"Ale", "A", "L1", 5⟩ (by decide)
  exact ⟨by decide, h.1, by rw [h.2.2]; decide⟩

/-- C1 counterexample: the claim says the stored entry is overwritten with
the incoming link; in fact after reconciling an incoming record with link
"L2" against a stored entry with link "L1" the snapshot still holds "L1". -/
theorem c1_counterexample :
    ((reconcile c1Snap [⟨"Ale", "A", "L2", 7⟩]).1 ("Ale", "A")).map
        Location.booking_link = some "L1" ∧
    ("L1" : String) ≠ "L2" := ⟨by decide, by decide⟩

/-- C2 (corrected): reconciling a list whose keys are pairwise distinct a
second time, against the snapshot the first pass produced, yields an empty
`changed_locations`.  (Without the distinctness hypothesis the claim fails,
see the counterexample.) -/
theorem c2_idempotent_on_distinct_keys (snap : Snapshot) (locs : List Location)
    (hnd : locs.Pairwise (fun a b => a.key ≠ b.key)) :
    (reconcile (reconcile snap locs).1 locs).2 = [] := by
  apply reconcile_noop
  intro l hl
  exact reconcile_counts locs snap [] hnd l hl

/-- Witness for C2 with a two-element distinct-key list. -/
theorem c2_idempotent_on_distinct_keys_witness :
    ([(⟨"Ale", "A", "L", 1⟩ : Location), ⟨"Ale", "B", "L", 2⟩].Pairwise
        (fun a b => a.key ≠ b.key)) ∧
    (reconcile (reconcile Snapshot.empty
        [⟨"Ale", "A", "L", 1⟩, ⟨"Ale", "B", "L", 2⟩]).1
        [⟨"Ale", "A", "L", 1⟩, ⟨"Ale", "B", "L", 2⟩]).2 = [] :=
  ⟨by decide, c2_idempotent_on_distinct_keys Snapshot.empty
    [⟨"Ale", "A", "L", 1⟩, ⟨"Ale", "B", "L", 2⟩] (by decide)⟩

/-- C2 counterexample: with two records sharing a key but carrying different
counts, re-reconciling the identical list against the snapshot the first
pass produced appends both records again — `changed_locations` is not empty
on the second pass. -/
theorem c2_counterexample :
    (reconcile (reconcile Snapshot.empty
        [⟨"Ale", "A", "L", 1⟩, ⟨"Ale", "A", "L", 2⟩]).1
        [⟨"Ale", "A", "L", 1⟩, ⟨"Ale", "A", "L", 2⟩]).2 ≠ [] := by decide

/-- C3 (corrected): reconciling a non-empty list with pairwise distinct keys
against the empty snapshot returns the input list itself (same order) as
`changed_locations`, and the resulting snapshot holds exactly those entries:
every input location whole under its key, and nothing under any other key.
(Without the distinctness hypothesis the claim fails, see the
counterexample.) -/
theorem c3_empty_snapshot_all_new (locs : List Location)
    (hne : locs ≠ [])
    (hnd : locs.Pairwise (fun a b => a.key ≠ b.key)) :
    (reconcile Snapshot.empty locs).2 = locs ∧
    (∀ l ∈ locs, (reconcile Snapshot.empty locs).1 l.key = some l) ∧
    (∀ k, (∀ l ∈ locs, l.key ≠ k) → (reconcile Snapshot.empty locs).1 k = none) := by
  obtain ⟨h2, h1⟩ := reconcile_all_new locs Snapshot.empty []
    (fun l _ => rfl) hnd
  refine ⟨?_, h1, ?_⟩
  · show (List.foldl reconcileStep (Snapshot.empty, []) locs).2 = locs
    rw [h2]
    rfl
  · intro k hk
    exact reconcile_fst_not_mem locs Snapshot.empty [] k hk

/-- Witness for C3 with a two-element distinct-key list. -/
theorem c3_empty_snapshot_all_new_witness :
    ([(⟨"Ale", "A", "L1", 3⟩ : Location), ⟨"Ale", "B", "L2", 9⟩] ≠ []) ∧
    ([(⟨"Ale", "A", "L1", 3⟩ : Location), ⟨"Ale", "B", "L2", 9⟩].Pairwise
        (fun a b => a.key ≠ b.key)) ∧
    (reconcile Snapshot.empty [⟨"Ale", "A", "L1", 3⟩, ⟨"Ale", "B", "L2", 9⟩]).2
        = [⟨"Ale", "A", "L1", 3⟩, ⟨"Ale", "B", "L2", 9⟩] ∧
    (reconcile Snapshot.empty [⟨"Ale", "A", "L1", 3⟩, ⟨"Ale", "B", "L2", 9⟩]).1
        (Location.key ⟨"Ale", "A", "L1", 3⟩) = some ⟨"Ale", "A", "L1", 3⟩ := by
  have h := c3_empty_snapshot_all_new
    [⟨"Ale", "A", "L1", 3⟩, ⟨"Ale", "B", "L2", 9⟩] (by decide) (by decide)
  exact ⟨by decide, by decide, h.1, h.2.1 ⟨"Ale", "A", "L1", 3⟩ (by decide)⟩

/-- C3 counterexample: a non-empty list repeating one location is not
returned whole — the second occurrence hits the count-stable branch, so
`changed_locations` has one element while the input has two. -/
theorem c3_counterexample :
    ([(⟨"Ale", "A", "L", 5⟩ : Location), ⟨"Ale", "A", "L", 5⟩] ≠ []) ∧
    (reconcile Snapshot.empty [⟨"Ale", "A", "L", 5⟩, ⟨"Ale", "A", "L", 5⟩]).2
      ≠ [⟨"Ale", "A", "L", 5⟩, ⟨"Ale", "A", "L", 5⟩] := ⟨by decide, by decide⟩

/-! ## Claim C7 — ranking -/

/-- Stability of the sort: filtering by any predicate that relates all its
members in the comparison commutes with sorting. -/
theorem sortChanged_filter_stable (l : List Location) (p : Location → Bool)
    (hp : ∀ a b, p a = true → p b = true → rankLE a b) :
    (sortChanged l).filter p = l.filter p := by
  have hpw : (l.filter p).Pairwise rankLE :=
    List.pairwise_of_forall_mem_list (fun a ha b hb =>
      hp a b (List.of_mem_filter ha) (List.of_mem_filter hb))
  have hsub : List.Sublist (l.filter p) (List.insertionSort rankLE l) :=
    List.sublist_insertionSort hpw (List.filter_sublist l)
  have hsub2 := hsub.filter p
  have hself : (l.filter p).filter p = l.filter p :=
    List.filter_eq_self.mpr (fun a ha => List.of_mem_filter ha)
  rw [hself] at hsub2
  have hperm : List.Perm ((List.insertionSort rankLE l).filter p) (l.filter p) :=
    (List.perm_insertionSort rankLE l).filter p
  exact (hsub2.eq_of_length hperm.length_eq.symm).symm

/-- C7 (confirmed): the sort is ascending by `num_available`, a permutation
of its input, and stable (for every count, the records carrying that count
appear in their input order); the primary candidate is the head of the
sorted-then-filtered list, and its count is minimal among the allow-listed
changed records. -/
theorem c7_ranking (changed : List Location) :
    (sortChanged changed).Pairwise
        (fun a b => a.num_available ≤ b.num_available) ∧
    List.Perm (sortChanged changed) changed ∧
    (∀ c : Nat, (sortChanged changed).filter (fun l => l.num_available = c)
        = changed.filter (fun l => l.num_available = c)) ∧
    primaryCandidate changed = (filterChanged (sortChanged changed)).head? ∧
    (∀ x, primaryCandidate changed = some x →
      ∀ y ∈ filterChanged (sortChanged changed),
        x.num_available ≤ y.num_available) := by
  have hsorted : (sortChanged changed).Pairwise
      (fun a b => a.num_available ≤ b.num_available) :=
    List.sorted_insertionSort rankLE changed
  refine ⟨hsorted, List.perm_insertionSort rankLE changed, ?_, rfl, ?_⟩
  · intro c
    exact sortChanged_filter_stable changed (fun l => l.num_available = c)
      (fun a b ha hb => by
        simp only [decide_eq_true_eq] at ha hb
        show a.num_available ≤ b.num_available
        omega)
  · intro x hx y hy
    have hfsorted : (filterChanged (sortChanged changed)).Pairwise
        (fun a b => a.num_available ≤ b.num_available) :=
      hsorted.sublist (List.filter_sublist _)
    rcases hf : filterChanged (sortChanged changed) with _ | ⟨z, rest⟩
    · rw [primaryCandidate, hf] at hx
      exact absurd hx (by simp)
    · rw [primaryCandidate, hf] at hx
      have hz : z = x := by simpa using hx
      subst hz
      rw [hf] at hy hfsorted
      rcases List.mem_cons.mp hy with rfl | hy'
      · exact Nat.le_refl _
      · exact (List.pairwise_cons.mp hfsorted).1 y hy'

/-- Witness for C7: the spec example with counts 12, 3, 8 — the stability
equation at count 3 and the minimality of the primary candidate. -/
theorem c7_ranking_witness :
    (sortChanged [⟨"Ale", "A", "L1", 12⟩, ⟨"Ale", "B", "L2", 3⟩,
        ⟨"Ale", "C", "L3", 8⟩]).filter (fun l => l.num_available = 3)
      = [⟨"Ale", "B", "L2", 3⟩] ∧
    (⟨"Ale", "B", "L2", 3⟩ : Location).num_available
      ≤ (⟨"Ale", "C", "L3", 8⟩ : Location).num_available := by
  have h := c7_ranking [⟨"Ale", "A", "L1", 12⟩, ⟨"Ale", "B", "L2", 3⟩,
    ⟨"Ale", "C", "L3", 8⟩]
  refine ⟨?_, h.2.2.2.2 ⟨"Ale", "B", "L2", 3⟩ (by decide)
    ⟨"Ale", "C", "L3", 8⟩ (by decide)⟩
  rw [h.2.2.1 3]
  decide

/-! ## Claims C8, C9 — first-run suppression, filtering and the report -/

/-- Once the first-run flag is down, every later cycle hands the head of the
filtered list (when there is one) to the action hook. -/
theorem runCycles_false_actionLink (inputs : List (List Location)) :
    ∀ snap : Snapshot, ∀ out ∈ runCycles false snap inputs,
      out.actionLink = out.filtered.head?.map Location.booking_link := by
  induction inputs with
  | nil => intro snap out hout; simp [runCycles] at hout
  | cons locs rest ih =>
    intro snap out hout
    rw [runCycles] at hout
    rcases List.mem_cons.mp hout with rfl | h'
    · show (runCycle false snap locs).2.actionLink
        = (runCycle false snap locs).2.filtered.head?.map Location.booking_link
      rw [runCycle]
      cases (filterChanged (sortChanged (reconcile snap locs).2)).head? <;> rfl
    · exact ih _ out h'

/-- C8 (confirmed): the very first cycle of process lifetime never invokes
the action hook, whatever the filtered result; every later cycle hands over
exactly the head of its filtered list, i.e. the hook fires on a later cycle
precisely when a primary candidate exists. -/
theorem c8_first_run_suppression (inputs : List (List Location)) :
    (∀ out, (initialTrace inputs).head? = some out → out.actionLink = none) ∧
    (∀ out ∈ (initialTrace inputs).tail,
        out.actionLink = out.filtered.head?.map Location.booking_link) := by
  cases inputs with
  | nil => exact ⟨fun out hout => by simp [initialTrace, runCycles] at hout,
      fun out hout => by simp [initialTrace, runCycles] at hout⟩
  | cons locs rest =>
    constructor
    · intro out hout
      have : out = (runCycle true Snapshot.empty locs).2 := by
        rw [initialTrace, runCycles] at hout
        simpa using hout.symm
      subst this
      rw [runCycle]
      cases (filterChanged (sortChanged (reconcile Snapshot.empty locs).2)).head? <;> rfl
    · intro out hout
      rw [initialTrace, runCycles] at hout
      exact runCycles_false_actionLink rest _ out hout

/-- Witness for C8: two cycles over the same allow-listed location with a
changed count; the first cycle stays quiet, the second fires the hook. -/
theorem c8_first_run_suppression_witness :
    (initialTrace [[⟨"Ale", "A", "L", 3⟩], [⟨"Ale", "A", "L", 7⟩]]).head?
      = some (runCycle true Snapshot.empty [⟨"Ale", "A", "L", 3⟩]).2 ∧
    (runCycle true Snapshot.empty [⟨"Ale", "A", "L", 3⟩]).2.actionLink = none ∧
    (runCycle false (runCycle true Snapshot.empty [⟨"Ale", "A", "L", 3⟩]).1.2
        [⟨"Ale", "A", "L", 7⟩]).2
      ∈ (initialTrace [[⟨"Ale", "A", "L", 3⟩], [⟨"Ale", "A", "L", 7⟩]]).tail ∧
    (runCycle false (runCycle true Snapshot.empty [⟨"Ale", "A", "L", 3⟩]).1.2
        [⟨"Ale", "A", "L", 7⟩]).2.actionLink
      = (runCycle false (runCycle true Snapshot.empty [⟨"Ale", "A", "L", 3⟩]).1.2
        [⟨"Ale", "A", "L", 7⟩]).2.filtered.head?.map Location.booking_link := by
  have h := c8_first_run_suppression [[⟨"Ale", "A", "L", 3⟩], [⟨"Ale", "A", "L", 7⟩]]
  exact ⟨by decide, h.1 _ (by decide), by decide, h.2 _ (by decide)⟩

/-- Case analysis of the "Filtered ..." report in terms of the filtered-out
count. -/
theorem filteredMessage_cases (a b : Nat) (h : b ≤ a) :
    filteredMessage a b
      = (if a - b = 0 then none
         else if a - b = 1 then some "Filtered 1 location."
         else some ("Filtered " ++ toString (a - b) ++ " locations.")) := by
  rw [filteredMessage]
  by_cases h0 : a - b = 0
  · rw [if_neg (show ¬ a > b by omega), if_pos h0]
  · by_cases h1 : a - b = 1
    · rw [if_pos (show a > b by omega), if_pos h1, if_neg h0, if_pos h1]
    · rw [if_pos (show a > b by omega), if_neg h1, if_neg h0, if_neg h1]

/-- C9 (confirmed): each cycle keeps exactly the changed records whose
municipality occurs in the fixed allow-list (case-sensitive), and the
filtered-out count N is reported with the singular line at N = 1, the
plural line at N ≥ 2, and no line at N = 0. -/
theorem c9_filter_and_report (fr : Bool) (snap : Snapshot) (locs : List Location) :
    (runCycle fr snap locs).2.filtered
      = ((runCycle fr snap locs).2.changed).filter
          (fun l => MUNICIPALITIES.contains l.municipality) ∧
    (runCycle fr snap locs).2.message
      = (if (runCycle fr snap locs).2.changed.length
            - (runCycle fr snap locs).2.filtered.length = 0 then none
         else if (runCycle fr snap locs).2.changed.length
            - (runCycle fr snap locs).2.filtered.length = 1 then
           some "Filtered 1 location."
         else some ("Filtered "
            ++ toString ((runCycle fr snap locs).2.changed.length
                - (runCycle fr snap locs).2.filtered.length)
            ++ " locations.")) := by
  refine ⟨rfl, ?_⟩
  have hc : (runCycle fr snap locs).2.changed = sortChanged (reconcile snap locs).2 := rfl
  have hf : (runCycle fr snap locs).2.filtered
      = filterChanged (sortChanged (reconcile snap locs).2) := rfl
  have hm : (runCycle fr snap locs).2.message
      = filteredMessage (sortChanged (reconcile snap locs).2).length
          (filterChanged (sortChanged (reconcile snap locs).2)).length := rfl
  rw [hc, hf, hm]
  exact filteredMessage_cases _ _ (List.length_filter_le _ _)

/-! ## Helper lemmas about the two regexes -/

/-- Matching `(.+)$` on a nonempty newline-free remainder captures it whole. -/
theorem matchRestToEnd_ok (o : List Char) (hne : o ≠ [])
    (hnl : ∀ c ∈ o, c ≠ '\n') : matchRestToEnd o = some o := by
  rw [matchRestToEnd, if_pos]
  exact ⟨hne, List.all_eq_true.mpr (fun c hc => by
    simpa using hnl c hc)⟩

/-- Inside `\s+`, walking a whitespace run and then hitting a non-whitespace
head succeeds with the newline-free remainder. -/
theorem spacePlusGo_ok (sp o : List Char) (hsp : ∀ c ∈ sp, rsWhitespace c)
    (hne : o ≠ []) (hnl : ∀ c ∈ o, c ≠ '\n')
    (hoc : ∀ c ∈ o.take 1, ¬ rsWhitespace c) :
    spacePlusGo (sp ++ o) = some o := by
  induction sp with
  | nil =>
    cases o with
    | nil => exact absurd rfl hne
    | cons c u =>
      rw [List.nil_append, spacePlusGo]
      rw [if_neg (hoc c (by simp))]
      exact matchRestToEnd_ok _ hne hnl
  | cons c sp' ih =>
    rw [List.cons_append, spacePlusGo, if_pos (hsp c (by simp))]
    rw [ih (fun x hx => hsp x (by simp [hx]))]

/-- Matching `\s+(.+)$` against a nonempty whitespace run followed by a
newline-free remainder with a non-whitespace head captures the remainder. -/
theorem matchSpacePlusRest_ok (sp o : List Char) (hspne : sp ≠ [])
    (hsp : ∀ c ∈ sp, rsWhitespace c)
    (hne : o ≠ []) (hnl : ∀ c ∈ o, c ≠ '\n')
    (hoc : ∀ c ∈ o.take 1, ¬ rsWhitespace c) :
    matchSpacePlusRest (sp ++ o) = some o := by
  cases sp with
  | nil => exact absurd rfl hspne
  | cons c sp' =>
    rw [List.cons_append, matchSpacePlusRest, if_pos (hsp c (by simp))]
    exact spacePlusGo_ok sp' o (fun x hx => hsp x (by simp [hx])) hne hnl hoc

/-- Splitting at the first colon of `m ++ ':' :: rest` returns `(m, rest)`
when `m` is colon-free. -/
theorem splitFirstColon_append (m rest : List Char) (hm : ∀ c ∈ m, c ≠ ':') :
    splitFirstColon (m ++ ':' :: rest) = some (m, rest) := by
  induction m with
  | nil => simp [splitFirstColon]
  | cons c m' ih =>
    rw [List.cons_append, splitFirstColon, if_neg (by simpa using hm c (by simp))]
    rw [ih (fun x hx => hm x (by simp [hx]))]

/-- Matching `([^:]+):\s+(.+)$` against a canonical decomposition. -/
theorem matchLabelBody_ok (m sp o : List Char) (hmne : m ≠ [])
    (hmc : ∀ c ∈ m, c ≠ ':')
    (hspne : sp ≠ []) (hsp : ∀ c ∈ sp, rsWhitespace c)
    (hne : o ≠ []) (hnl : ∀ c ∈ o, c ≠ '\n')
    (hoc : ∀ c ∈ o.take 1, ¬ rsWhitespace c) :
    matchLabelBody (m ++ ':' :: (sp ++ o)) = some (m, o) := by
  rw [matchLabelBody, splitFirstColon_append m (sp ++ o) hmc]
  show (if m = [] then none
        else match matchSpacePlusRest (sp ++ o) with
          | some o => some (m, o)
          | none => none) = some (m, o)
  rw [if_neg hmne, matchSpacePlusRest_ok sp o hspne hsp hne hnl hoc]

/-- A whitespace prefix does not change a successful capture of
`LOCATION_RE`: the greedy `\s*` swallows it. -/
theorem locationCaptures_ws_prefix (w s : List Char)
    (hw : ∀ c ∈ w, rsWhitespace c) (r : List Char × List Char)
    (h : locationCaptures s = some r) :
    locationCaptures (w ++ s) = some r := by
  induction w with
  | nil => simpa using h
  | cons c w' ih =>
    rw [List.cons_append, locationCaptures, if_pos (hw c (by simp))]
    rw [ih (fun x hx => hw x (by simp [hx]))]

/-- The full `LOCATION_RE` capture theorem on a canonical decomposition
`whitespace ++ municipality ++ ':' ++ whitespace-run ++ organization`. -/
theorem locationCaptures_canonical (w m sp o : List Char)
    (hw : ∀ c ∈ w, rsWhitespace c)
    (hmne : m ≠ []) (hmhead : ∀ c ∈ m.take 1, ¬ rsWhitespace c)
    (hmc : ∀ c ∈ m, c ≠ ':')
    (hspne : sp ≠ []) (hsp : ∀ c ∈ sp, rsWhitespace c)
    (hone : o ≠ []) (hnl : ∀ c ∈ o, c ≠ '\n')
    (hoc : ∀ c ∈ o.take 1, ¬ rsWhitespace c) :
    locationCaptures (w ++ (m ++ ':' :: (sp ++ o))) = some (m, o) := by
  apply locationCaptures_ws_prefix w _ hw
  cases m with
  | nil => exact absurd rfl hmne
  | cons mc m' =>
    rw [List.cons_append, locationCaptures, if_neg (hmhead mc (by simp))]
    exact matchLabelBody_ok (mc :: m') sp o hmne hmc hspne hsp hone hnl hoc

/-- Greedy `\s*` runs exactly up to an opening parenthesis. -/
theorem dropWhile_ws_paren (u : List Char) :
    ∀ iw : List Char, (∀ c ∈ iw, rsWhitespace c) →
      (iw ++ '(' :: u).dropWhile rsWhitespace = '(' :: u
  | [], _ => by rw [List.nil_append, List.dropWhile_cons_of_neg (by decide)]
  | c :: iw', hiw => by
      rw [List.cons_append, List.dropWhile_cons_of_pos (hiw c (by simp))]
      exact dropWhile_ws_paren u iw' (fun x hx => hiw x (by simp [hx]))

/-- An ASCII decimal digit is in particular a Unicode `Nd` digit (the ASCII
run is the first block of the `Nd` table). -/
theorem asciiDigit_rsDigit (c : Char) (h : asciiDigit c = true) :
    rsDigit c = true := by
  simp only [asciiDigit] at h
  simp [rsDigit, h]

/-- Greedy `\d+` captures exactly an `Nd` digit run followed by a
non-digit. -/
theorem takeWhile_digit_append (rest : List Char)
    (hrest : ∀ c ∈ rest.take 1, ¬ rsDigit c) :
    ∀ d : List Char, (∀ c ∈ d, rsDigit c) →
      (d ++ rest).takeWhile rsDigit = d
  | [], _ => by
      cases rest with
      | nil => rfl
      | cons c u =>
        rw [List.nil_append, List.takeWhile_cons_of_neg (hrest c (by simp))]
  | c :: d', hdd => by
      rw [List.cons_append, List.takeWhile_cons_of_pos (hdd c (by simp))]
      rw [takeWhile_digit_append rest hrest d' (fun x hx => hdd x (by simp [hx]))]

/-- The `INFO_RE` capture theorem on a canonical decomposition
`whitespace ++ open-paren ++ digit-run ++ rest`. -/
theorem infoCaptures_canonical (iw d rest : List Char)
    (hiw : ∀ c ∈ iw, rsWhitespace c)
    (hd : d ≠ []) (hdd : ∀ c ∈ d, rsDigit c)
    (hrest : ∀ c ∈ rest.take 1, ¬ rsDigit c) :
    infoCaptures (iw ++ '(' :: (d ++ rest)) = some d := by
  rw [infoCaptures, dropWhile_ws_paren (d ++ rest) iw hiw]
  show (if (d ++ rest).takeWhile rsDigit = [] then none
        else some ((d ++ rest).takeWhile rsDigit)) = some d
  rw [takeWhile_digit_append rest hrest d hdd, if_neg hd]

/-! ## Claims C4, C5, C6, C10 — the Record Parser -/

/-- Reduction of the parser once all three sub-elements are present. -/
theorem get_available_location_eq (s link i : String) :
    get_available_location ⟨some s, some link, some i⟩
      = (match locationCaptures s.data, infoCaptures i.data with
         | some (m, o), some d =>
           (match parseU64 d with
            | some n => ParseResult.ok ⟨String.mk m, String.mk o, link, n⟩
            | none => ParseResult.panicked)
         | _, _ => ParseResult.skip) := rfl

/-- C4 (corrected): on a well-formed block whose heading decomposes as
`whitespace ++ municipality ++ ':' ++ whitespace ++ organization` and whose
span text decomposes as `whitespace ++ '(' ++ digits ++ rest`, the parser
returns the captured municipality and organization exactly as they stand in
the text — the leading `\s*` strips whitespace before the municipality, but
neither capture is trimmed of trailing whitespace — together with the href
verbatim and the numeric value of the digit run (provided the run is ASCII
and its value fits `u64`). -/
theorem c4_parser_extraction (w m sp o iw d rest : List Char) (link : String)
    (hw : ∀ c ∈ w, rsWhitespace c)
    (hmne : m ≠ []) (hmhead : ∀ c ∈ m.take 1, ¬ rsWhitespace c)
    (hmc : ∀ c ∈ m, c ≠ ':')
    (hspne : sp ≠ []) (hsp : ∀ c ∈ sp, rsWhitespace c)
    (hone : o ≠ []) (hnl : ∀ c ∈ o, c ≠ '\n')
    (hoc : ∀ c ∈ o.take 1, ¬ rsWhitespace c)
    (hiw : ∀ c ∈ iw, rsWhitespace c)
    (hd : d ≠ []) (hdd : ∀ c ∈ d, asciiDigit c)
    (hrest : ∀ c ∈ rest.take 1, ¬ rsDigit c)
    (hfit : natOfDigits d < 2 ^ 64) :
    get_available_location
        ⟨some (String.mk (w ++ (m ++ ':' :: (sp ++ o)))), some link,
         some (String.mk (iw ++ '(' :: (d ++ rest)))⟩
      = ParseResult.ok ⟨String.mk m, String.mk o, link, natOfDigits d⟩ := by
  rw [get_available_location_eq]
  rw [show (String.mk (w ++ (m ++ ':' :: (sp ++ o)))).data
      = w ++ (m ++ ':' :: (sp ++ o)) from rfl]
  rw [show (String.mk (iw ++ '(' :: (d ++ rest))).data
      = iw ++ '(' :: (d ++ rest) from rfl]
  rw [locationCaptures_canonical w m sp o hw hmne hmhead hmc hspne hsp hone hnl hoc]
  rw [infoCaptures_canonical iw d rest hiw hd
    (fun c hc => asciiDigit_rsDigit c (hdd c hc)) hrest]
  show (match parseU64 d with
        | some n => ParseResult.ok ⟨String.mk m, String.mk o, link, n⟩
        | none => ParseResult.panicked)
      = ParseResult.ok ⟨String.mk m, String.mk o, link, natOfDigits d⟩
  rw [parseU64, if_pos ⟨hd, List.all_eq_true.mpr hdd, hfit⟩]

/-- Witness for C4: the heading "Ale: Org" with href "L" and span "(3 st)". -/
theorem c4_parser_extraction_witness :
    get_available_location
        ⟨some (String.mk ([] ++ ("Ale".data ++ ':' :: (" ".data ++ "Org".data)))),
         some "L", some (String.mk ([] ++ '(' :: ("3".data ++ " st)".data)))⟩
      = ParseResult.ok ⟨String.mk "Ale".data, String.mk "Org".data, "L",
          natOfDigits "3".data⟩ :=
  c4_parser_extraction [] "Ale".data " ".data "Org".data [] "3".data " st)".data "L"
    (by decide) (by decide) (by decide) (by decide) (by decide) (by decide)
    (by decide) (by decide) (by decide) (by decide) (by decide) (by decide)
    (by decide) (by decide)

/-- C4 counterexample: the claim says both captures are trimmed of
surrounding whitespace; on the heading "Ale : Org " the parser returns
municipality "Ale " and organization "Org " with their trailing spaces
kept. -/
theorem c4_counterexample :
    get_available_location ⟨some "Ale : Org ", some "L", some "(3 st)"⟩
      = ParseResult.ok ⟨"Ale ", "Org ", "L", 3⟩ ∧
    ("Ale " : String) ≠ "Ale" ∧ ("Org " : String) ≠ "Org" :=
  ⟨by decide, by decide, by decide⟩

/-- C5 (confirmed): a block missing the heading, the link href, or the span,
or whose heading or span text fails its regex, is skipped — the parser
never builds a partial record from it. -/
theorem c5_malformed_blocks_skipped (b : Block)
    (h : b.heading = none ∨ b.href = none ∨ b.info = none ∨
         (∃ s, b.heading = some s ∧ locationCaptures s.data = none) ∨
         (∃ s, b.info = some s ∧ infoCaptures s.data = none)) :
    get_available_location b = ParseResult.skip := by
  obtain ⟨bh, bl, bi⟩ := b
  rcases h with h | h | h | ⟨s, hs, hc⟩ | ⟨s, hs, hc⟩
  · simp only at h
    subst h
    cases bl <;> cases bi <;> rfl
  · simp only at h
    subst h
    cases bh <;> cases bi <;> rfl
  · simp only at h
    subst h
    cases bh <;> cases bl <;> rfl
  · simp only at hs
    subst hs
    cases bl with
    | none => cases bi <;> rfl
    | some link =>
      cases bi with
      | none => rfl
      | some i =>
        rw [get_available_location_eq, hc]
  · simp only at hs
    subst hs
    cases bh with
    | none => cases bl <;> rfl
    | some s2 =>
      cases bl with
      | none => rfl
      | some link =>
        rw [get_available_location_eq, hc]
        cases hloc : locationCaptures s2.data with
        | none => rfl
        | some r => obtain ⟨m, o⟩ := r; rfl

/-- Witness for C5: a block with no heading. -/
theorem c5_malformed_blocks_skipped_witness :
    get_available_location ⟨none, some "L", some "(3)"⟩ = ParseResult.skip :=
  c5_malformed_blocks_skipped ⟨none, some "L", some "(3)"⟩ (Or.inl rfl)

/-- C6 (confirmed): when every structural and regex check passes but the
captured digit run does not convert to a `u64`, the parser aborts (the
`.unwrap()` on the failed conversion) — it neither skips the block nor
returns a record with a defaulted count. -/
theorem c6_failed_conversion_aborts (b : Block) (s i link : String)
    (m o d : List Char)
    (hh : b.heading = some s) (hl : b.href = some link) (hi : b.info = some i)
    (hlc : locationCaptures s.data = some (m, o))
    (hic : infoCaptures i.data = some d)
    (hp : parseU64 d = none) :
    get_available_location b = ParseResult.panicked ∧
    get_available_location b ≠ ParseResult.skip ∧
    (∀ loc, get_available_location b ≠ ParseResult.ok loc) := by
  obtain ⟨bh, bl, bi⟩ := b
  simp only at hh hl hi
  subst hh; subst hl; subst hi
  have hmain : get_available_location ⟨some s, some link, some i⟩
      = ParseResult.panicked := by
    rw [get_available_location_eq, hlc, hic]
    show (match parseU64 d with
          | some n => ParseResult.ok ⟨String.mk m, String.mk o, link, n⟩
          | none => ParseResult.panicked) = ParseResult.panicked
    rw [hp]
  refine ⟨hmain, by rw [hmain]; exact fun hthis => ParseResult.noConfusion hthis, ?_⟩
  intro loc
  rw [hmain]
  exact fun hthis => ParseResult.noConfusion hthis

/-- Witness for C6: a span value of twenty nines exceeds the `u64` range. -/
theorem c6_failed_conversion_aborts_witness :
    locationCaptures ("Ale: Org" : String).data = some ("Ale".data, "Org".data) ∧
    infoCaptures ("(99999999999999999998)" : String).data
      = some "99999999999999999998".data ∧
    parseU64 "99999999999999999998".data = none ∧
    get_available_location
        ⟨some "Ale: Org", some "L", some "(99999999999999999998)"⟩
      = ParseResult.panicked := by
  have h := c6_failed_conversion_aborts
    ⟨some "Ale: Org", some "L", some "(99999999999999999998)"⟩
    "Ale: Org" "(99999999999999999998)" "L" "Ale".data "Org".data
    "99999999999999999998".data rfl rfl rfl (by decide) (by decide) (by decide)
  exact ⟨by decide, by decide, by decide, h.1⟩

/-- C10 (confirmed): a block that passes every structural and regex check —
heading matching the label pattern, href present, span text starting with a
parenthesized digit run — still makes the parser abort when the digit run
exceeds the `u64` maximum (twenty nines), because the conversion behind the
unconditional `.unwrap()` fails: the digits-only regex does not make the
conversion infallible. -/
theorem c10_overflow_panic :
    locationCaptures ("Ale: Org" : String).data = some ("Ale".data, "Org".data) ∧
    infoCaptures ("(99999999999999999999 st)" : String).data
      = some "99999999999999999999".data ∧
    get_available_location
        ⟨some "Ale: Org", some "L", some "(99999999999999999999 st)"⟩
      = ParseResult.panicked :=
  ⟨by decide, by decide, by decide⟩
